import Mathlib

/-!
Verification of the byte-streaming core of a Telegram media streaming bot
(`WebStreamer/utils/custom_dl.py`, class `ByteStreamer`).

The Python coroutines are shallowly embedded as pure Lean functions:
network responses are oracles passed in as functions or as explicit
response traces, byte strings are `List Nat`, and exception control flow
is materialised in explicit result values.  Each definition mirrors one
region of the Python source, named after it where Lean allows.
-/

namespace Streamer

/-- Python slice `chunk[a:b]` for non-negative bounds `a`, `b`. -/
def pySlice (chunk : List Nat) (a b : Nat) : List Nat := (chunk.take b).drop a

/-- Per-part slicing policy of `ByteStreamer.yield_file`
(`custom_dl.py` lines 208-215 and, identically, lines 289-296):
`part_count == 1` yields `chunk[first_part_cut:last_part_cut]`;
the first of several parts yields `chunk[first_part_cut:]`;
the last of several parts yields `chunk[:last_part_cut]`;
a middle part yields the chunk unmodified. -/
def slicePart (chunk : List Nat) (firstCut lastCut currentPart partCount : Nat) : List Nat :=
  if partCount = 1 then pySlice chunk firstCut lastCut
  else if currentPart = 1 then chunk.drop firstCut
  else if currentPart = partCount then chunk.take lastCut
  else chunk

/-- Direct (non-CDN) fetch loop of `yield_file` (`custom_dl.py` lines 203-227).
`fetch offset` is the `upload.GetFile` oracle giving `r.bytes` for a request
at `offset` with `limit = chunkSize`.  One fuel unit is one loop iteration;
the loop body: read the chunk, stop on an empty chunk, otherwise yield the
sliced part, advance `current_part` and `offset`, stop once
`current_part > part_count`, else fetch again. -/
def yieldLoop (fetch : Nat → List Nat) (firstCut lastCut partCount chunkSize : Nat) :
    Nat → Nat → Nat → List (List Nat)
  | _, _, 0 => []
  | offset, currentPart, fuel + 1 =>
    let chunk := fetch offset
    if chunk = [] then []
    else
      slicePart chunk firstCut lastCut currentPart partCount ::
        (if partCount < currentPart + 1 then []
         else yieldLoop fetch firstCut lastCut partCount chunkSize
                (offset + chunkSize) (currentPart + 1) fuel)

/-- The sequence of chunks yielded by the direct branch of
`ByteStreamer.yield_file` started at `offset` with `current_part = 1`.
`partCount + 1` fuel units strictly exceed the number of loop iterations the
Python `while True` can perform (the loop breaks once
`current_part > part_count`), so the fuel never runs out and the model
computes exactly the Python loop. -/
def yield_file_direct (fetch : Nat → List Nat)
    (offset firstCut lastCut partCount chunkSize : Nat) : List (List Nat) :=
  yieldLoop fetch firstCut lastCut partCount chunkSize offset 1 (partCount + 1)

/-- Result of one `upload.GetCdnFile` invocation (`custom_dl.py` lines 239-245):
either a `CdnFileReuploadNeeded` carrying a request token, or a `CdnFile`
carrying encrypted bytes. -/
inductive CdnResp where
  | reupload (requestToken : Nat)
  | file (cipher : List Nat)
deriving DecidableEq, Repr

/-- One element of the `upload.GetCdnFileHashes` answer: a segment length
`limit` and the declared SHA-256 digest of that segment. -/
structure CdnHash where
  limit : Nat
  hash : List Nat
deriving DecidableEq, Repr

/-- Hash verification loop of the CDN branch (`custom_dl.py` lines 280-285):
`for i, h in enumerate(hashes)` checks
`h.hash == sha256(decrypted_chunk[h.limit * i : h.limit * (i + 1)]).digest()`
and raises `CDNFileHashMismatch` at the first failure; `i` is the running
enumeration index. -/
def checkHashesFrom (sha : List Nat → List Nat) (decrypted : List Nat) :
    List CdnHash → Nat → Bool
  | [], _ => true
  | h :: rest, i =>
    decide (h.hash = sha ((decrypted.take (h.limit * (i + 1))).drop (h.limit * i))) &&
      checkHashesFrom sha decrypted rest (i + 1)

/-- All declared hash segments verify against the decrypted chunk
(enumeration starts at index 0, as in the source). -/
def checkHashes (sha : List Nat → List Nat) (hashes : List CdnHash)
    (decrypted : List Nat) : Bool :=
  checkHashesFrom sha decrypted hashes 0

/-- How the CDN `while True` loop of `yield_file` ended. -/
inductive CdnExit where
  | done
  | emptyChunk
  | volumeNotFound
  | hashMismatch (offset : Nat)
  | outOfResponses
deriving DecidableEq, Repr

/-- Oracles for the CDN branch: `decrypt offset cipher` is
`aes.ctr256_decrypt` with the redirect's key and the IV derived from
`offset // 16` (`custom_dl.py` lines 263-270), `sha` is `sha256(.).digest()`,
`getHashes offset` is the `upload.GetCdnFileHashes` answer for `offset`, and
`reuploadOk token` tells whether `upload.ReuploadCdnFile` succeeds
(`false` models a raised `VolumeLocNotFound`). -/
structure CdnOracle where
  decrypt : Nat → List Nat → List Nat
  sha : List Nat → List Nat
  getHashes : Nat → List CdnHash
  reuploadOk : Nat → Bool

/-- CDN fetch loop of `yield_file` (`custom_dl.py` lines 238-302), consuming
one `GetCdnFile` response per iteration from the trace `responses`.  Returns
the offsets at which `GetCdnFile` was invoked, the yielded chunks, and how
the loop exited.  Mirrors the source order: a reupload-needed answer either
retries the same offset and part (on success) or breaks (on
`VolumeLocNotFound`); otherwise the chunk is decrypted, hash-verified
(mismatch raises), checked for emptiness, sliced and yielded, and the loop
advances `offset` and `current_part` until `current_part > part_count`. -/
def cdnLoop (o : CdnOracle) (firstCut lastCut partCount chunkSize : Nat) :
    List CdnResp → Nat → Nat → List Nat × List (List Nat) × CdnExit
  | [], _, _ => ([], [], .outOfResponses)
  | resp :: rest, offset, currentPart =>
    match resp with
    | .reupload tok =>
      if o.reuploadOk tok then
        let r := cdnLoop o firstCut lastCut partCount chunkSize rest offset currentPart
        (offset :: r.1, r.2)
      else ([offset], [], .volumeNotFound)
    | .file cipher =>
      let decrypted := o.decrypt offset cipher
      if checkHashes o.sha (o.getHashes offset) decrypted = false then
        ([offset], [], .hashMismatch offset)
      else if decrypted = [] then ([offset], [], .emptyChunk)
      else
        let y := slicePart decrypted firstCut lastCut currentPart partCount
        if partCount < currentPart + 1 then ([offset], [y], .done)
        else
          let r := cdnLoop o firstCut lastCut partCount chunkSize rest
                     (offset + chunkSize) (currentPart + 1)
          (offset :: r.1, y :: r.2.1, r.2.2)

/-- Whether a CDN loop exit propagates an exception to the caller of
`yield_file`: only `CDNFileHashMismatch` is raised out of the loop; `break`
exits (done, empty chunk, `VolumeLocNotFound`) end the generator normally. -/
def cdnRaisesToCaller : CdnExit → Bool
  | .hashMismatch _ => true
  | _ => false

/-- Outcome of the whole CDN branch, `try ... finally: await cdn_session.stop()`
(`custom_dl.py` lines 235-306): the loop result together with the
`finally`-guaranteed stop of the short-lived CDN session on every path. -/
structure CdnRun where
  requests : List Nat
  yields : List (List Nat)
  exitCode : CdnExit
  cdnStopped : Bool
  raised : Bool
deriving DecidableEq, Repr

/-- Run the CDN branch: start the CDN session, run the loop, and stop the
CDN session in the `finally` block regardless of how the loop exited. -/
def runCdnBranch (o : CdnOracle) (firstCut lastCut partCount chunkSize : Nat)
    (responses : List CdnResp) (offset currentPart : Nat) : CdnRun :=
  let r := cdnLoop o firstCut lastCut partCount chunkSize responses offset currentPart
  ⟨r.1, r.2.1, r.2.2, true, cdnRaisesToCaller r.2.2⟩

/-- Result of one `auth.ImportAuthorization` attempt inside
`generate_media_session`: success, the specific `AuthBytesInvalid` failure
(the only one caught by the `except` clause), or any other exception. -/
inductive ImportResult where
  | ok
  | authBytesInvalid
  | otherError
deriving DecidableEq, Repr

/-- Outcome of the cross-data-center authorization loop: the import
succeeded; all attempts failed so the `for`-`else` stopped the session and
raised `AuthBytesInvalid`; or a non-`AuthBytesInvalid` exception propagated. -/
inductive AuthOutcome where
  | success
  | allFailedRaise
  | raisedOther
deriving DecidableEq, Repr

/-- Cross-data-center authorization import loop of `generate_media_session`
(`custom_dl.py` lines 93-112): `for _ in range(6)` re-exports authorization
(one export per attempt), tries the import, breaks on success, continues
only on `AuthBytesInvalid`, and in the `for`-`else` stops the session and
raises `AuthBytesInvalid`.  `res i` is the oracle result of attempt `i`;
the first component of the result counts attempts made (equal to the number
of `ExportAuthorization` calls). -/
def authImportLoop (res : Nat → ImportResult) : Nat → Nat → Nat × AuthOutcome
  | 0, i => (i, .allFailedRaise)
  | n + 1, i =>
    match res i with
    | .ok => (i + 1, .success)
    | .authBytesInvalid => authImportLoop res n (i + 1)
    | .otherError => (i + 1, .raisedOther)

/-- The authorization import loop as invoked by the source: 6 attempts,
starting at attempt 0. -/
def auth_import (res : Nat → ImportResult) : Nat × AuthOutcome :=
  authImportLoop res 6 0

/-- The fields of the resolved `FileId` descriptor this development needs:
the index of the upstream client that resolved it and the data-center id. -/
structure FileId where
  index : Nat
  dc_id : Nat
deriving DecidableEq, Repr

/-- Membership lookup in the descriptor cache `cached_file_ids`
(a Python dict keyed by the string `db_id`). -/
def lookupCache : List (String × FileId) → String → Option FileId
  | [], _ => none
  | (k, v) :: rest, key => if k = key then some v else lookupCache rest key

/-- Python dict assignment `cached_file_ids[db_id] = file_id`: replace the
entry if the key exists, append it otherwise. -/
def insertCache : List (String × FileId) → String → FileId → List (String × FileId)
  | [], key, v => [(key, v)]
  | (k, w) :: rest, key, v =>
    if k = key then (k, v) :: rest else (k, w) :: insertCache rest key v

/-- Python `min(work_loads, key=work_loads.get)` (`custom_dl.py` line 59)
over the dict's iteration-ordered `(key, value)` pairs: the first key whose
value attains the minimum, kept on ties because `min` replaces its best
candidate only on a strictly smaller key-function value; `none` models the
`ValueError` raised by `min` on an empty dict. -/
def firstMinKey (l : List (Nat × Int)) : Option Nat :=
  match l with
  | [] => none
  | p :: rest => some ((rest.foldl (fun best q => if q.2 < best.2 then q else best) p).1)

/-- Helper for reasoning about `firstMinKey`: the fold inside `firstMinKey`
applied to the index-ordered workload table `{0: w 0, 1: w 1, ..., m: w m}`,
i.e. the running `(key, value)` best candidate after scanning keys
`0, 1, ..., m`. -/
def minFold (w : Nat → Int) (m : Nat) : Nat × Int :=
  ((List.range m).map fun i => (i + 1, w (i + 1))).foldl
    (fun best q => if q.2 < best.2 then q else best) (0, w 0)

/-- Observable result of one resolver call: the descriptor cache afterwards,
the returned descriptor or the propagated exception, the number of upstream
`get_file_ids` metadata lookups performed, and the upstream connection index
chosen for the lookup (if one was). -/
structure ResolveResult where
  cache : List (String × FileId)
  result : Except String FileId
  upstreamCalls : Nat
  chosenIndex : Option Nat
deriving Repr

/-- `ByteStreamer.generate_file_properties` (`custom_dl.py` lines 53-65):
pick `index = min(work_loads, key=work_loads.get)`, perform the upstream
metadata lookup `get_file_ids` through client `index` (the oracle
`get_file_ids index` gives its result), and only on success store the
descriptor in the cache under `db_id`.  A raised lookup error propagates
with the cache untouched. -/
def generate_file_properties (work_loads : List (Nat × Int))
    (get_file_ids : Nat → Except String FileId)
    (cache : List (String × FileId)) (db_id : String) : ResolveResult :=
  match firstMinKey work_loads with
  | none => ⟨cache, .error "ValueError", 0, none⟩
  | some index =>
    match get_file_ids index with
    | .error e => ⟨cache, .error e, 1, some index⟩
    | .ok file_id => ⟨insertCache cache db_id file_id, .ok file_id, 1, some index⟩

/-- `ByteStreamer.get_file_properties` (`custom_dl.py` lines 41-51):
if `db_id` is not in `cached_file_ids`, call `generate_file_properties`
(propagating its error if it raises); finally return
`cached_file_ids[db_id]`. -/
def get_file_properties (work_loads : List (Nat × Int))
    (get_file_ids : Nat → Except String FileId)
    (cache : List (String × FileId)) (db_id : String) : ResolveResult :=
  match lookupCache cache db_id with
  | some fid => ⟨cache, .ok fid, 0, none⟩
  | none =>
    let r := generate_file_properties work_loads get_file_ids cache db_id
    match r.result with
    | .error e => ⟨r.cache, .error e, r.upstreamCalls, r.chosenIndex⟩
    | .ok _ =>
      match lookupCache r.cache db_id with
      | some v => ⟨r.cache, .ok v, r.upstreamCalls, r.chosenIndex⟩
      | none => ⟨r.cache, .error "KeyError", r.upstreamCalls, r.chosenIndex⟩

/-- How the `try` block of `yield_file` (`custom_dl.py` lines 197-314) ends:
normal completion of the fetch loop, a `TimeoutError`/`AttributeError`
(swallowed by `except ... : pass`), an `OSError`, any other exception
(e.g. `CDNFileHashMismatch`), or the consumer closing the generator at a
`yield` (a `GeneratorExit`, caught by no `except` clause). -/
inductive BodyExit where
  | normal
  | timeoutOrAttrErr
  | osErr
  | otherErr
  | consumerCancel
deriving DecidableEq, Repr

/-- Outcome of a `yield_file` call as seen by its caller. -/
inductive Outcome where
  | setupRaised
  | completed
  | gracefulEnd
  | raisedOS
  | raisedOther
  | cancelled
deriving DecidableEq, Repr

/-- The mutable state `yield_file` touches besides the byte stream:
`work_loads[file_id.index]`, whether `client.media_sessions` holds a session
for `file_id.dc_id`, and whether that media session was stopped by the
`OSError` handler. -/
structure ShellState where
  load : Int
  sessionCached : Bool
  mediaStopped : Bool
deriving DecidableEq, Repr

/-- Control-flow and cleanup skeleton of `ByteStreamer.yield_file`
(`custom_dl.py` lines 188-317), with the fetch loop body abstracted into
`bodyExit`.  Source order: `work_loads[file_id.index] += 1` (line 189), then
`generate_media_session` (line 191; on success the session for
`file_id.dc_id` is registered in `client.media_sessions`; a raised error
propagates out of the generator), then `get_location` (line 195; a raised
error likewise propagates), and only then the `try` block whose handlers run
`pass` on `TimeoutError`/`AttributeError`, pop and stop the media session
and re-raise on `OSError`, and whose `finally` decrements the counter.
Errors raised before the `try` block skip the `finally`. -/
def yieldFileShell (st : ShellState) (sessionOk : Bool) (locationOk : Bool)
    (bodyExit : BodyExit) : ShellState × Outcome :=
  let st1 : ShellState := { st with load := st.load + 1 }
  if sessionOk = false then (st1, .setupRaised)
  else
    let st2 : ShellState := { st1 with sessionCached := true }
    if locationOk = false then (st2, .setupRaised)
    else
      match bodyExit with
      | .normal => ({ st2 with load := st2.load - 1 }, .completed)
      | .timeoutOrAttrErr => ({ st2 with load := st2.load - 1 }, .gracefulEnd)
      | .osErr =>
        ({ st2 with sessionCached := false, mediaStopped := true,
                    load := st2.load - 1 }, .raisedOS)
      | .otherErr => ({ st2 with load := st2.load - 1 }, .raisedOther)
      | .consumerCancel => ({ st2 with load := st2.load - 1 }, .cancelled)

/-- One cooperative-scheduler step of a `get_file_properties` call for key
`key` whose upstream lookup will return `file_id`.  Phase 0 is the
synchronous prefix up to the first suspension: the cache membership check
and, on a miss, issuing the upstream `get_file_ids` lookup (the task then
suspends at that `await`); phase 1 is the resumption after the lookup:
write the cache and return; phase 2 is finished.  A cache hit finishes in
phase 0 with no upstream call.  `calls` counts upstream lookups issued. -/
def stepResolve (file_id : FileId) (key : String)
    (cache : List (String × FileId)) (calls : Nat) (phase : Nat) :
    List (String × FileId) × Nat × Nat :=
  match phase with
  | 0 =>
    match lookupCache cache key with
    | some _ => (cache, calls, 2)
    | none => (cache, calls + 1, 1)
  | 1 => (insertCache cache key file_id, calls, 2)
  | _ => (cache, calls, phase)

/-- Run two interleaved `get_file_properties` tasks A and B for the same key
on the shared cache, under a schedule (`true` steps A, `false` steps B).
Returns the final cache, the total number of upstream lookups issued, and
both task phases.  This is the single-threaded cooperative model of
`asyncio`: code between awaits runs atomically, and the scheduler picks who
resumes at each suspension point. -/
def runResolveSchedule (file_id : FileId) (key : String) :
    List Bool → List (String × FileId) → Nat → Nat → Nat →
    List (String × FileId) × Nat × Nat × Nat
  | [], cache, calls, pa, pb => (cache, calls, pa, pb)
  | true :: rest, cache, calls, pa, pb =>
    let s := stepResolve file_id key cache calls pa
    runResolveSchedule file_id key rest s.1 s.2.1 s.2.2 pb
  | false :: rest, cache, calls, pa, pb =>
    let s := stepResolve file_id key cache calls pb
    runResolveSchedule file_id key rest s.1 s.2.1 pa s.2.2

theorem yieldLoop_map (fetch : Nat → List Nat) (f l pc cs : Nat) :
    ∀ fuel offset cp, 1 ≤ cp → cp ≤ pc → pc + 1 - cp ≤ fuel →
    (∀ i, i ≤ pc - cp → fetch (offset + i * cs) ≠ []) →
    yieldLoop fetch f l pc cs offset cp fuel =
      (List.range (pc + 1 - cp)).map
        (fun i => slicePart (fetch (offset + i * cs)) f l (cp + i) pc) := by
  intro fuel
  induction fuel with
  | zero => intro offset cp h1 h2 h3 _; omega
  | succ n ih =>
    intro offset cp h1 h2 _ hne
    have hchunk : fetch offset ≠ [] := by simpa using hne 0 (by omega)
    rw [yieldLoop]
    simp only [hchunk, if_neg]
    by_cases hlast : pc < cp + 1
    · have hone : pc + 1 - cp = 1 := by omega
      rw [hone]
      simp [hlast, List.range_succ]
    · have hrec := ih (offset + cs) (cp + 1) (by omega) (by omega) (by omega)
        (fun i hi => by
          have := hne (i + 1) (by omega)
          have harith : offset + (i + 1) * cs = offset + cs + i * cs := by ring
          rwa [harith] at this)
      simp only [hlast, if_neg, if_false]
      rw [hrec]
      have hsplit : pc + 1 - cp = (pc + 1 - (cp + 1)) + 1 := by omega
      rw [hsplit, List.range_succ_eq_map, List.map_cons, List.map_map]
      congr 1
      · simp
      · refine List.map_congr_left ?_
        intro i _
        have harith : offset + cs + i * cs = offset + (i + 1) * cs := by ring
        have harith2 : cp + 1 + i = cp + (i + 1) := by ring
        simp [Function.comp, harith, harith2]

theorem yieldLoop_empty_stop (fetch : Nat → List Nat) (f l pc cs : Nat) :
    ∀ fuel offset cp k, 1 ≤ cp → cp + k ≤ pc → k < fuel →
    (∀ i, i < k → fetch (offset + i * cs) ≠ []) →
    fetch (offset + k * cs) = [] →
    yieldLoop fetch f l pc cs offset cp fuel =
      (List.range k).map
        (fun i => slicePart (fetch (offset + i * cs)) f l (cp + i) pc) := by
  intro fuel
  induction fuel with
  | zero => intro offset cp k _ _ h3 _ _; omega
  | succ n ih =>
    intro offset cp k h1 h2 _ hne hstop
    match k with
    | 0 =>
      have : fetch offset = [] := by simpa using hstop
      rw [yieldLoop]
      simp [this]
    | k' + 1 =>
      have hchunk : fetch offset ≠ [] := by simpa using hne 0 (by omega)
      have hcont : ¬ pc < cp + 1 := by omega
      rw [yieldLoop]
      simp only [hchunk, if_neg, hcont, if_false]
      have hrec := ih (offset + cs) (cp + 1) k' (by omega) (by omega) (by omega)
        (fun i hi => by
          have := hne (i + 1) (by omega)
          have harith : offset + (i + 1) * cs = offset + cs + i * cs := by ring
          rwa [harith] at this)
        (by
          have harith : offset + (k' + 1) * cs = offset + cs + k' * cs := by ring
          rwa [harith] at hstop)
      rw [hrec, List.range_succ_eq_map, List.map_cons, List.map_map]
      congr 1
      · simp
      · refine List.map_congr_left ?_
        intro i _
        have harith : offset + cs + i * cs = offset + (i + 1) * cs := by ring
        have harith2 : cp + 1 + i = cp + (i + 1) := by ring
        simp [Function.comp, harith, harith2]

theorem slicePart_single (chunk : List Nat) (f l : Nat) :
    slicePart chunk f l 1 1 = pySlice chunk f l := by
  simp [slicePart]

theorem slicePart_first (chunk : List Nat) (f l pc : Nat) (h : 2 ≤ pc) :
    slicePart chunk f l 1 pc = chunk.drop f := by
  unfold slicePart
  rw [if_neg (by omega), if_pos rfl]

theorem slicePart_mid (chunk : List Nat) (f l cp pc : Nat)
    (h1 : 2 ≤ cp) (h2 : cp < pc) :
    slicePart chunk f l cp pc = chunk := by
  unfold slicePart
  rw [if_neg (by omega), if_neg (by omega), if_neg (by omega)]

theorem slicePart_last (chunk : List Nat) (f l pc : Nat) (h : 2 ≤ pc) :
    slicePart chunk f l pc pc = chunk.take l := by
  unfold slicePart
  rw [if_neg (by omega), if_neg (by omega), if_pos rfl]

theorem yield_file_direct_map (fetch : Nat → List Nat) (offset f l pc cs : Nat)
    (hpc : 1 ≤ pc) (hne : ∀ i, i < pc → fetch (offset + i * cs) ≠ []) :
    yield_file_direct fetch offset f l pc cs =
      (List.range pc).map
        (fun i => slicePart (fetch (offset + i * cs)) f l (i + 1) pc) := by
  unfold yield_file_direct
  rw [yieldLoop_map fetch f l pc cs (pc + 1) offset 1 (by omega) hpc (by omega)
      (fun i hi => hne i (by omega))]
  have hn : pc + 1 - 1 = pc := by omega
  rw [hn]
  exact List.map_congr_left (fun i _ => by rw [Nat.add_comm 1 i])

theorem yield_file_direct_join (fetch : Nat → List Nat) (offset f l pc cs : Nat)
    (hpc : 2 ≤ pc) (hne : ∀ i, i < pc → fetch (offset + i * cs) ≠ []) :
    (yield_file_direct fetch offset f l pc cs).flatten =
      (fetch offset).drop f
        ++ ((List.range (pc - 2)).map (fun i => fetch (offset + (i + 1) * cs))).flatten
        ++ (fetch (offset + (pc - 1) * cs)).take l := by
  obtain ⟨m, rfl⟩ : ∃ m, pc = m + 2 := ⟨pc - 2, by omega⟩
  rw [yield_file_direct_map fetch offset f l (m + 2) cs (by omega) hne]
  rw [List.range_succ_eq_map, List.range_succ, List.map_cons, List.map_map,
    List.map_append]
  have hm2 : m + 2 - 2 = m := by omega
  have hm1 : m + 2 - 1 = m + 1 := by omega
  rw [hm2, hm1]
  simp only [List.flatten_cons, List.flatten_append]
  have h0 : slicePart (fetch (offset + 0 * cs)) f l (0 + 1) (m + 2)
      = (fetch offset).drop f := by
    rw [show offset + 0 * cs = offset by ring]
    exact slicePart_first _ _ _ _ (by omega)
  have hmid : List.map
      ((fun i => slicePart (fetch (offset + i * cs)) f l (i + 1) (m + 2)) ∘ Nat.succ)
      (List.range m)
      = List.map (fun i => fetch (offset + (i + 1) * cs)) (List.range m) := by
    refine List.map_congr_left ?_
    intro i hi
    have hilt : i < m := List.mem_range.mp hi
    simp only [Function.comp]
    rw [show Nat.succ i = i + 1 from rfl]
    exact slicePart_mid _ _ _ _ _ (by omega) (by omega)
  have hlast : List.map
      ((fun i => slicePart (fetch (offset + i * cs)) f l (i + 1) (m + 2)) ∘ Nat.succ)
      [m] = [(fetch (offset + (m + 1) * cs)).take l] := by
    simp only [List.map_cons, List.map_nil, Function.comp]
    rw [show Nat.succ m = m + 1 from rfl,
      show m + 1 + 1 = m + 2 from rfl]
    rw [slicePart_last _ _ _ _ (by omega)]
  rw [h0, hmid, hlast]
  simp

/-- C1: in the direct fetch loop of `yield_file`, when every fetched chunk is
non-empty the generator yields exactly `part_count` chunks, part `i` fetched
at `offset + i * chunk_size`, each sliced by the policy (single part:
`chunk[firstCut:lastCut]`; first of several: `chunk[firstCut:]`; last:
`chunk[:lastCut]`; middle: unmodified); for `part_count > 1` the
concatenation of the yields is `chunk0[firstCut:] ++ middles ++
chunkLast[:lastCut]`; an empty fetched chunk ends the loop early with only
the earlier parts yielded; and the CDN branch applies the same slicing
policy to decrypted chunks. -/
theorem c1_yield_file_slicing (fetch : Nat → List Nat) (offset f l pc cs : Nat)
    (hpc : 1 ≤ pc) :
    ((∀ i, i < pc → fetch (offset + i * cs) ≠ []) →
      yield_file_direct fetch offset f l pc cs =
        (List.range pc).map
          (fun i => slicePart (fetch (offset + i * cs)) f l (i + 1) pc)
      ∧ (yield_file_direct fetch offset f l pc cs).length = pc)
    ∧ (2 ≤ pc → (∀ i, i < pc → fetch (offset + i * cs) ≠ []) →
      (yield_file_direct fetch offset f l pc cs).flatten =
        (fetch offset).drop f
          ++ ((List.range (pc - 2)).map (fun i => fetch (offset + (i + 1) * cs))).flatten
          ++ (fetch (offset + (pc - 1) * cs)).take l)
    ∧ (∀ k, k < pc → (∀ i, i < k → fetch (offset + i * cs) ≠ []) →
        fetch (offset + k * cs) = [] →
        yield_file_direct fetch offset f l pc cs =
          (List.range k).map
            (fun i => slicePart (fetch (offset + i * cs)) f l (i + 1) pc))
    ∧ (∀ (o : CdnOracle) (rest : List CdnResp) (cipher : List Nat) (off cp : Nat),
        checkHashes o.sha (o.getHashes off) (o.decrypt off cipher) = true →
        o.decrypt off cipher ≠ [] →
        (cdnLoop o f l pc cs (.file cipher :: rest) off cp).2.1.head? =
          some (slicePart (o.decrypt off cipher) f l cp pc)) := by
  refine ⟨fun hne => ⟨?_, ?_⟩, fun h2 hne => ?_, fun k hk hne hstop => ?_,
    fun o rest cipher off cp hhash hne => ?_⟩
  · exact yield_file_direct_map fetch offset f l pc cs hpc hne
  · rw [yield_file_direct_map fetch offset f l pc cs hpc hne]
    simp
  · exact yield_file_direct_join fetch offset f l pc cs h2 hne
  · unfold yield_file_direct
    rw [yieldLoop_empty_stop fetch f l pc cs (pc + 1) offset 1 k (by omega)
      (by omega) (by omega) hne hstop]
    exact List.map_congr_left (fun i _ => by rw [Nat.add_comm 1 i])
  · rw [cdnLoop]
    simp only [hhash, if_neg, Bool.true_eq_false, if_false, hne]
    by_cases hdone : pc < cp + 1 <;> simp [hdone]

/-- Witness for C1 at a concrete input: three parts of chunk size 4 fetched
from offsets 10, 14, 18 with cuts 1 and 1. -/
theorem c1_yield_file_slicing_witness :
    (1 : Nat) ≤ 3 ∧
      yield_file_direct (fun o => [o, o + 1]) 10 1 1 3 4 = [[11], [14, 15], [18]] := by
  refine ⟨by decide, ?_⟩
  have h := (c1_yield_file_slicing (fun o => [o, o + 1]) 10 1 1 3 4 (by decide)).1
    (by decide)
  rw [h.1]
  decide

theorem checkHashesFrom_iff (sha : List Nat → List Nat) (d : List Nat)
    (hs : List CdnHash) :
    ∀ n, checkHashesFrom sha d hs n = true ↔
      ∀ i, i < hs.length →
        (hs.getD i ⟨0, []⟩).hash =
          sha ((d.take ((hs.getD i ⟨0, []⟩).limit * (n + i + 1))).drop
            ((hs.getD i ⟨0, []⟩).limit * (n + i))) := by
  induction hs with
  | nil => intro n; simp [checkHashesFrom]
  | cons h t ih =>
    intro n
    rw [checkHashesFrom, Bool.and_eq_true, decide_eq_true_eq, ih (n + 1)]
    constructor
    · rintro ⟨hp, ht⟩ i hi
      match i with
      | 0 => simpa using hp
      | j + 1 =>
        have hj := ht j (by simpa using hi)
        simp only [List.getD_cons_succ]
        have e1 : n + (j + 1) + 1 = n + 1 + j + 1 := by omega
        have e2 : n + (j + 1) = n + 1 + j := by omega
        rw [e1, e2]
        exact hj
    · intro hall
      refine ⟨?_, fun j hj => ?_⟩
      · simpa using hall 0 (by simp)
      · have hj1 := hall (j + 1) (by simpa using hj)
        simp only [List.getD_cons_succ] at hj1
        have e1 : n + 1 + j + 1 = n + (j + 1) + 1 := by omega
        have e2 : n + 1 + j = n + (j + 1) := by omega
        rw [e1, e2]
        exact hj1

/-- C5: CDN integrity verification.  `checkHashes` holds exactly when every
declared hash-segment equals the SHA-256 of the corresponding slice of the
decrypted chunk; a failing check makes the CDN loop abort at once with a
`hashMismatch` regardless of any remaining responses — no chunk is yielded
from that iteration on and no retry happens; the CDN session is stopped on
this exit path by the `finally` block; and a `CDNFileHashMismatch` exit
propagates to the caller as a raised error, like any non-timeout,
non-`OSError` exception in the `try` body. -/
theorem c5_cdn_hash_mismatch_aborts :
    (∀ (sha : List Nat → List Nat) (hs : List CdnHash) (d : List Nat),
      checkHashes sha hs d = true ↔
        ∀ i, i < hs.length →
          (hs.getD i ⟨0, []⟩).hash =
            sha ((d.take ((hs.getD i ⟨0, []⟩).limit * (i + 1))).drop
              ((hs.getD i ⟨0, []⟩).limit * i)))
    ∧ (∀ (o : CdnOracle) (f l pc cs : Nat) (rest : List CdnResp)
        (cipher : List Nat) (off cp : Nat),
        checkHashes o.sha (o.getHashes off) (o.decrypt off cipher) = false →
        cdnLoop o f l pc cs (.file cipher :: rest) off cp =
          ([off], [], .hashMismatch off))
    ∧ (∀ (o : CdnOracle) (f l pc cs : Nat) (responses : List CdnResp)
        (off cp : Nat),
        (runCdnBranch o f l pc cs responses off cp).cdnStopped = true)
    ∧ (∀ off, cdnRaisesToCaller (.hashMismatch off) = true)
    ∧ (∀ st : ShellState, (yieldFileShell st true true .otherErr).2 = .raisedOther) := by
  refine ⟨fun sha hs d => ?_, fun o f l pc cs rest cipher off cp hbad => ?_,
    fun o f l pc cs responses off cp => rfl, fun off => rfl, fun st => rfl⟩
  · rw [checkHashes, checkHashesFrom_iff sha d hs 0]
    constructor
    · intro hp i hi
      have := hp i hi
      rwa [Nat.zero_add] at this
    · intro hp i hi
      have := hp i hi
      rwa [Nat.zero_add]
  · rw [cdnLoop]
    simp [hbad]

/-- Witness for C5 at a concrete input: one declared hash `[7]` against a
digest oracle returning `[9]` aborts immediately with `hashMismatch 5`. -/
theorem c5_cdn_hash_mismatch_aborts_witness :
    checkHashes (fun _ => [9]) [⟨1, [7]⟩] [1, 2] = false ∧
      cdnLoop ⟨fun _ c => c, fun _ => [9], fun _ => [⟨1, [7]⟩], fun _ => true⟩
        0 9 3 4 (.file [1, 2] :: [.file [3]]) 5 1 = ([5], [], .hashMismatch 5) := by
  refine ⟨by decide, ?_⟩
  exact (c5_cdn_hash_mismatch_aborts).2.1
    ⟨fun _ c => c, fun _ => [9], fun _ => [⟨1, [7]⟩], fun _ => true⟩
    0 9 3 4 [.file [3]] [1, 2] 5 1 (by decide)

/-- C6: a `CdnFileReuploadNeeded` response whose reupload request succeeds
makes the loop retry `GetCdnFile` at the same offset with the same part
number, yielding nothing for that iteration (the request log gains the
repeated offset, the yields and exit are those of the continuation at the
unchanged offset and part); if the reupload raises `VolumeLocNotFound` the
CDN loop breaks early, yields nothing more, does not raise to the caller,
and the CDN session is still stopped. -/
theorem c6_cdn_reupload_retry (o : CdnOracle) (f l pc cs : Nat)
    (rest : List CdnResp) (off cp tok : Nat) :
    (o.reuploadOk tok = true →
      cdnLoop o f l pc cs (.reupload tok :: rest) off cp =
        (off :: (cdnLoop o f l pc cs rest off cp).1,
         (cdnLoop o f l pc cs rest off cp).2.1,
         (cdnLoop o f l pc cs rest off cp).2.2))
    ∧ (o.reuploadOk tok = false →
      cdnLoop o f l pc cs (.reupload tok :: rest) off cp = ([off], [], .volumeNotFound)
      ∧ (runCdnBranch o f l pc cs (.reupload tok :: rest) off cp).raised = false
      ∧ (runCdnBranch o f l pc cs (.reupload tok :: rest) off cp).cdnStopped = true) := by
  constructor
  · intro hok
    rw [cdnLoop]
    simp [hok]
  · intro hfail
    have hloop : cdnLoop o f l pc cs (.reupload tok :: rest) off cp
        = ([off], [], .volumeNotFound) := by
      rw [cdnLoop]
      simp [hfail]
    refine ⟨hloop, ?_, rfl⟩
    rw [runCdnBranch, hloop]
    rfl

/-- Witness for C6 at a concrete input: a reupload answer with token 1
(granted) retries offset 5 and then streams, while token 0 (volume not
found) ends the loop quietly. -/
theorem c6_cdn_reupload_retry_witness :
    ((fun t => decide (t = 1)) 1 = true ∧
      cdnLoop ⟨fun _ c => c, fun c => c, fun _ => [], fun t => decide (t = 1)⟩
        0 9 1 4 (.reupload 1 :: [.file [3]]) 5 1 =
        (5 :: [5], [[3]], .done))
    ∧ ((fun t => decide (t = 1)) 0 = false ∧
      cdnLoop ⟨fun _ c => c, fun c => c, fun _ => [], fun t => decide (t = 1)⟩
        0 9 1 4 (.reupload 0 :: [.file [3]]) 5 1 = ([5], [], .volumeNotFound)) := by
  constructor
  · refine ⟨by decide, ?_⟩
    rw [(c6_cdn_reupload_retry
      ⟨fun _ c => c, fun c => c, fun _ => [], fun t => decide (t = 1)⟩
      0 9 1 4 [.file [3]] 5 1 1).1 (by decide)]
    decide
  · refine ⟨by decide, ?_⟩
    exact ((c6_cdn_reupload_retry
      ⟨fun _ c => c, fun c => c, fun _ => [], fun t => decide (t = 1)⟩
      0 9 1 4 [.file [3]] 5 1 0).2 (by decide)).1

theorem authImportLoop_le (res : Nat → ImportResult) :
    ∀ n i, (authImportLoop res n i).1 ≤ i + n := by
  intro n
  induction n with
  | zero => intro i; simp [authImportLoop]
  | succ m ih =>
    intro i
    rw [authImportLoop]
    cases res i with
    | ok => simp
    | authBytesInvalid =>
      simp only
      have := ih (i + 1)
      omega
    | otherError => simp

theorem authImportLoop_all_invalid (res : Nat → ImportResult) :
    ∀ n i, (∀ j, i ≤ j → j < i + n → res j = .authBytesInvalid) →
    authImportLoop res n i = (i + n, .allFailedRaise) := by
  intro n
  induction n with
  | zero => intro i _; simp [authImportLoop]
  | succ m ih =>
    intro i hall
    rw [authImportLoop]
    rw [hall i (by omega) (by omega)]
    have := ih (i + 1) (fun j h1 h2 => hall j (by omega) (by omega))
    rw [this]
    simp only
    congr 1
    omega

theorem authImportLoop_first_ok (res : Nat → ImportResult) :
    ∀ n i k, i ≤ k → k < i + n → res k = .ok →
    (∀ j, i ≤ j → j < k → res j = .authBytesInvalid) →
    authImportLoop res n i = (k + 1, .success) := by
  intro n
  induction n with
  | zero => intro i k h1 h2 _ _; omega
  | succ m ih =>
    intro i k h1 h2 hok hbefore
    rw [authImportLoop]
    by_cases hik : i = k
    · subst hik
      rw [hok]
    · rw [hbefore i (by omega) (by omega)]
      exact ih (i + 1) k (by omega) (by omega) hok
        (fun j hj1 hj2 => hbefore j (by omega) hj2)

theorem authImportLoop_first_other (res : Nat → ImportResult) :
    ∀ n i k, i ≤ k → k < i + n → res k = .otherError →
    (∀ j, i ≤ j → j < k → res j = .authBytesInvalid) →
    authImportLoop res n i = (k + 1, .raisedOther) := by
  intro n
  induction n with
  | zero => intro i k h1 h2 _ _; omega
  | succ m ih =>
    intro i k h1 h2 hother hbefore
    rw [authImportLoop]
    by_cases hik : i = k
    · subst hik
      rw [hother]
    · rw [hbefore i (by omega) (by omega)]
      exact ih (i + 1) k (by omega) (by omega) hother
        (fun j hj1 hj2 => hbefore j (by omega) hj2)

/-- C7: the cross-data-center authorization import of
`generate_media_session` performs at most 6 attempts (each attempt is one
`ExportAuthorization` followed by one `ImportAuthorization`); if every one
of the 6 attempts fails with `AuthBytesInvalid` the `for`-`else` stops the
session and raises the fatal `AuthBytesInvalid` with no further retry; the
loop exits on the first successful import; and any failure other than
`AuthBytesInvalid` is not retried but propagates at once. -/
theorem c7_auth_import_six_attempts (res : Nat → ImportResult) :
    (auth_import res).1 ≤ 6
    ∧ ((∀ i, i < 6 → res i = .authBytesInvalid) →
        auth_import res = (6, .allFailedRaise))
    ∧ (∀ k, k < 6 → res k = .ok → (∀ i, i < k → res i = .authBytesInvalid) →
        auth_import res = (k + 1, .success))
    ∧ (∀ k, k < 6 → res k = .otherError →
        (∀ i, i < k → res i = .authBytesInvalid) →
        auth_import res = (k + 1, .raisedOther)) := by
  refine ⟨?_, fun hall => ?_, fun k hk hok hbefore => ?_,
    fun k hk hother hbefore => ?_⟩
  · have := authImportLoop_le res 6 0
    simpa [auth_import] using this
  · have := authImportLoop_all_invalid res 6 0
      (fun j h1 h2 => hall j (by omega))
    simpa [auth_import] using this
  · exact authImportLoop_first_ok res 6 0 k (by omega) (by omega) hok
      (fun j h1 h2 => hbefore j h2)
  · exact authImportLoop_first_other res 6 0 k (by omega) (by omega) hother
      (fun j h1 h2 => hbefore j h2)

/-- Witness for C7 at a concrete input: two `AuthBytesInvalid` failures
followed by a success on attempt 2 make the loop stop after 3 attempts. -/
theorem c7_auth_import_six_attempts_witness :
    (2 : Nat) < 6 ∧
      auth_import (fun i => if i = 2 then .ok else .authBytesInvalid)
        = (3, .success) := by
  refine ⟨by decide, ?_⟩
  exact (c7_auth_import_six_attempts
    (fun i => if i = 2 then .ok else .authBytesInvalid)).2.2.1 2 (by decide)
    (by decide) (by decide)

theorem minFold_succ (w : Nat → Int) (m : Nat) :
    minFold w (m + 1) =
      if w (m + 1) < (minFold w m).2 then (m + 1, w (m + 1)) else minFold w m := by
  rw [minFold, minFold, List.range_succ, List.map_append, List.foldl_append]
  rfl

theorem minFold_spec (w : Nat → Int) :
    ∀ m, (minFold w m).1 ≤ m ∧ (minFold w m).2 = w (minFold w m).1
      ∧ (∀ j, j ≤ m → (minFold w m).2 ≤ w j)
      ∧ (∀ j, j < (minFold w m).1 → (minFold w m).2 < w j) := by
  intro m
  induction m with
  | zero =>
    refine ⟨Nat.le_refl _, rfl, fun j hj => ?_, fun j hj => ?_⟩
    · have hj0 : j = 0 := by omega
      simp [minFold, hj0]
    · simp [minFold] at hj
  | succ m ih =>
    obtain ⟨hle, hval, hmin, hstrict⟩ := ih
    rw [minFold_succ]
    by_cases hlt : w (m + 1) < (minFold w m).2
    · rw [if_pos hlt]
      refine ⟨Nat.le_refl _, rfl, fun j hj => ?_, fun j hj => ?_⟩
      · rcases Nat.lt_or_ge j (m + 1) with hj1 | hj1
        · have := hmin j (by omega)
          omega
        · have hj2 : j = m + 1 := by omega
          simp [hj2]
      · have := hmin j (by omega)
        omega
    · rw [if_neg hlt]
      refine ⟨by omega, hval, fun j hj => ?_, hstrict⟩
      rcases Nat.lt_or_ge j (m + 1) with hj1 | hj1
      · exact hmin j (by omega)
      · have hj2 : j = m + 1 := by omega
        rw [hj2]
        omega

theorem firstMinKey_range (w : Nat → Int) (m : Nat) :
    firstMinKey ((List.range (m + 1)).map fun i => (i, w i)) =
      some (minFold w m).1 := by
  rw [List.range_succ_eq_map, List.map_cons, List.map_map]
  rw [firstMinKey, minFold]
  congr 2

/-- C4: on a cache miss the resolver picks
`index = min(work_loads, key=work_loads.get)`; over an index-ordered
workload table this is a connection index whose workload is the minimum,
and the lowest such index (every strictly smaller index carries a strictly
larger workload); in particular workloads `{0: 3, 1: 1, 2: 1}` select
connection index 1. -/
theorem c4_min_workload_selection :
    (∀ (work_loads : List (Nat × Int)) (gfi : Nat → Except String FileId)
       (cache : List (String × FileId)) (db_id : String),
       (generate_file_properties work_loads gfi cache db_id).chosenIndex =
         firstMinKey work_loads)
    ∧ (∀ (n : Nat) (w : Nat → Int), 0 < n →
        ∃ k, firstMinKey ((List.range n).map fun i => (i, w i)) = some k
          ∧ k < n ∧ (∀ j, j < n → w k ≤ w j) ∧ (∀ j, j < k → w k < w j))
    ∧ (∀ (gfi : Nat → Except String FileId) (cache : List (String × FileId))
        (db_id : String),
        (generate_file_properties [(0, 3), (1, 1), (2, 1)] gfi cache db_id).chosenIndex
          = some 1) := by
  have hchosen : ∀ (wl : List (Nat × Int)) (gfi : Nat → Except String FileId)
      (cache : List (String × FileId)) (db_id : String),
      (generate_file_properties wl gfi cache db_id).chosenIndex = firstMinKey wl := by
    intro wl gfi cache db_id
    rw [generate_file_properties]
    rcases h : firstMinKey wl with _ | idx
    · rfl
    · rcases hg : gfi idx with e | fid <;> simp [hg]
  refine ⟨hchosen, fun n w hn => ?_, fun gfi cache db_id => ?_⟩
  · obtain ⟨m, rfl⟩ : ∃ m, n = m + 1 := ⟨n - 1, by omega⟩
    obtain ⟨hle, hval, hmin, hstrict⟩ := minFold_spec w m
    refine ⟨(minFold w m).1, firstMinKey_range w m, by omega, fun j hj => ?_,
      fun j hj => ?_⟩
    · have := hmin j (by omega)
      omega
    · have := hstrict j hj
      omega
  · rw [hchosen]
    decide

/-- Witness for C4 at a concrete input: three connections with workloads
3, 1, 1 in index order select connection 1 (lowest index among the tied
minima). -/
theorem c4_min_workload_selection_witness :
    0 < 3 ∧
      firstMinKey ((List.range 3).map
        fun i => (i, if i = 0 then (3 : Int) else 1)) = some 1 := by
  refine ⟨by decide, ?_⟩
  obtain ⟨k, hk, hlt, hmin, hfirst⟩ := (c4_min_workload_selection).2.1 3
    (fun i => if i = 0 then (3 : Int) else 1) (by decide)
  have hk1 : k = 1 := by
    interval_cases k
    · have := hmin 1 (by omega)
      simp at this
    · rfl
    · have := hfirst 1 (by omega)
      simp at this
  rw [hk1] at hk
  exact hk

theorem lookupCache_insert (cache : List (String × FileId)) (key : String)
    (v : FileId) : lookupCache (insertCache cache key v) key = some v := by
  induction cache with
  | nil => simp [insertCache, lookupCache]
  | cons p rest ih =>
    obtain ⟨k, w⟩ := p
    by_cases hk : k = key
    · simp [insertCache, lookupCache, hk]
    · simp [insertCache, lookupCache, hk, ih]

/-- C3: when the descriptor for `db_id` is already cached,
`get_file_properties` returns exactly the cached descriptor, performs no
upstream metadata lookup, and leaves the cache untouched — a second
resolution after a successful first one is a pure cache read. -/
theorem c3_cache_hit_idempotent (work_loads : List (Nat × Int))
    (gfi : Nat → Except String FileId) (cache : List (String × FileId))
    (db_id : String) (fid : FileId)
    (h : lookupCache cache db_id = some fid) :
    get_file_properties work_loads gfi cache db_id =
      ⟨cache, .ok fid, 0, none⟩ := by
  rw [get_file_properties, h]

/-- Witness for C3 at a concrete input: a cached descriptor for key `"a"`
is returned unchanged with zero upstream calls, whatever the upstream
oracle would have answered. -/
theorem c3_cache_hit_idempotent_witness :
    lookupCache [("a", ⟨0, 4⟩)] "a" = some ⟨0, 4⟩ ∧
      get_file_properties [(0, 0)] (fun _ => .error "unreachable")
        [("a", ⟨0, 4⟩)] "a" = ⟨[("a", ⟨0, 4⟩)], .ok ⟨0, 4⟩, 0, none⟩ :=
  ⟨by decide, c3_cache_hit_idempotent [(0, 0)] (fun _ => .error "unreachable")
    [("a", ⟨0, 4⟩)] "a" ⟨0, 4⟩ (by decide)⟩

/-- C10: when the upstream metadata lookup raises,
`generate_file_properties` propagates the error and leaves the descriptor
cache unchanged (the cache is only written after a successful lookup), so
a failed resolution is never cached; on a cache miss the failure passes
through `get_file_properties` with the cache still unchanged, and a later
retry with a now-working upstream performs a fresh upstream lookup (one
more `get_file_ids` call) and only then caches. -/
theorem c10_failed_resolution_not_cached (work_loads : List (Nat × Int))
    (gfi : Nat → Except String FileId) (cache : List (String × FileId))
    (db_id : String) (e : String) (idx : Nat)
    (hidx : firstMinKey work_loads = some idx)
    (herr : gfi idx = .error e) :
    generate_file_properties work_loads gfi cache db_id =
      ⟨cache, .error e, 1, some idx⟩
    ∧ (lookupCache cache db_id = none →
        get_file_properties work_loads gfi cache db_id =
          ⟨cache, .error e, 1, some idx⟩)
    ∧ (lookupCache cache db_id = none →
        ∀ (gfi2 : Nat → Except String FileId) (fid2 : FileId),
          gfi2 idx = .ok fid2 →
          get_file_properties work_loads gfi2 cache db_id =
            ⟨insertCache cache db_id fid2, .ok fid2, 1, some idx⟩) := by
  have hgen : generate_file_properties work_loads gfi cache db_id =
      ⟨cache, .error e, 1, some idx⟩ := by
    rw [generate_file_properties, hidx]
    simp [herr]
  refine ⟨hgen, fun hmiss => ?_, fun hmiss gfi2 fid2 hok => ?_⟩
  · rw [get_file_properties, hmiss, hgen]
  · have hgen2 : generate_file_properties work_loads gfi2 cache db_id =
        ⟨insertCache cache db_id fid2, .ok fid2, 1, some idx⟩ := by
      rw [generate_file_properties, hidx]
      simp [hok]
    rw [get_file_properties, hmiss, hgen2]
    simp [lookupCache_insert]

/-- Witness for C10 at a concrete input: a failing lookup for key `"a"`
leaves the empty cache empty, and the retry with a working upstream caches
the descriptor. -/
theorem c10_failed_resolution_not_cached_witness :
    firstMinKey [(0, 0), (1, 2)] = some 0 ∧
      (fun _ : Nat => (.error "FloodWait" : Except String FileId)) 0
        = .error "FloodWait" ∧
      generate_file_properties [(0, 0), (1, 2)]
        (fun _ => .error "FloodWait") [] "a"
        = ⟨[], .error "FloodWait", 1, some 0⟩ := by
  refine ⟨by decide, rfl, ?_⟩
  exact (c10_failed_resolution_not_cached [(0, 0), (1, 2)]
    (fun _ => .error "FloodWait") [] "a" "FloodWait" 0 (by decide) rfl).1

/-- C2 evidence: on every exit of the `try` block of `yield_file` (normal
completion, swallowed timeout, `OSError`, any other exception, or the
consumer closing the generator) the workload counter returns to its
pre-call value; but when `generate_media_session` or `get_location` raises
before the `try` block is entered, the increment of line 189 leaks: the
counter ends one above its pre-call value because the `finally` decrement
of line 317 is never reached. -/
theorem c2_workload_restore_and_leak :
    (∀ (st : ShellState) (b : BodyExit),
      (yieldFileShell st true true b).1.load = st.load)
    ∧ (yieldFileShell ⟨0, false, false⟩ false true .normal).1.load = 1
    ∧ (yieldFileShell ⟨0, false, false⟩ false true .normal).2 = .setupRaised
    ∧ (yieldFileShell ⟨0, false, false⟩ true false .normal).1.load = 1 := by
  refine ⟨fun st b => ?_, rfl, rfl, rfl⟩
  cases b <;> simp [yieldFileShell]

/-- C8: an `OSError` during the fetch loop makes `yield_file` pop the
cached media session for the descriptor's data center from
`client.media_sessions`, stop it, and re-raise the error to the caller,
with the workload counter still restored by the `finally` block. -/
theorem c8_oserror_invalidates_session (st : ShellState) :
    (yieldFileShell st true true .osErr).1.sessionCached = false
    ∧ (yieldFileShell st true true .osErr).1.mediaStopped = true
    ∧ (yieldFileShell st true true .osErr).2 = .raisedOS
    ∧ (yieldFileShell st true true .osErr).1.load = st.load := by
  refine ⟨rfl, rfl, rfl, ?_⟩
  simp [yieldFileShell]

/-- C9 counterexample: under the cooperative interleaving A, B, A, B both
resolutions of the same key check the still-empty cache before either
writes it, so both issue the upstream metadata lookup — 2 upstream calls
with both tasks completing, refuting single-flight as stated. -/
theorem c9_single_flight_counterexample :
    (runResolveSchedule ⟨5, 2⟩ "k" [true, false, true, false] [] 0 0 0).2.1 = 2
    ∧ (runResolveSchedule ⟨5, 2⟩ "k" [true, false, true, false] [] 0 0 0).2.2.1 = 2
    ∧ (runResolveSchedule ⟨5, 2⟩ "k" [true, false, true, false] [] 0 0 0).2.2.2 = 2 :=
  ⟨rfl, rfl, rfl⟩

/-- C9 amended: resolution is not single-flight — with no lock between the
cache-membership check and the cache write, two interleaved resolutions for
the same fileId each issue the upstream lookup (2 calls, the later write
overwriting the earlier); only when one resolution completes before the
other starts does the second become a pure cache read (1 call). -/
theorem c9_amended_double_resolution :
    (runResolveSchedule ⟨5, 2⟩ "k" [true, false, true, false] [] 0 0 0).2.1 = 2
    ∧ (runResolveSchedule ⟨5, 2⟩ "k" [true, true, false, false] [] 0 0 0).2.1 = 1
    ∧ lookupCache
        (runResolveSchedule ⟨5, 2⟩ "k" [true, false, true, false] [] 0 0 0).1 "k"
        = some ⟨5, 2⟩
    ∧ lookupCache
        (runResolveSchedule ⟨5, 2⟩ "k" [true, true, false, false] [] 0 0 0).1 "k"
        = some ⟨5, 2⟩ :=
  ⟨rfl, rfl, rfl, rfl⟩

end Streamer
